import Mathlib

/-!
Shallow embedding of the Weather Advisor core (location sanitizer, intent
parser, forecast slice selector, day metric extractors, pleasantness verdict)
together with proofs about the embedded functions.

Python strings are modelled as `List Char`; Python `int` as `Int`; values read
out of JSON-like dicts as an explicit `JVal` type with `Option` for missing
keys; code that can raise and is wrapped in `try/except` is modelled with
`Option`.  Float division inside `_avg_humidity` is idealized as exact
rational arithmetic (Python's banker's rounding of exact halves is modelled
faithfully by `roundHalfEven`).
-/

set_option maxRecDepth 16384

/-- Shorthand: a Lean string literal as the `List Char` the model works on. -/

def sl (s : String) : List Char := s.toList

/-- ASCII uppercase letter (`A`-`Z`), by code point. -/

def isUpperA (c : Char) : Bool := 65 ≤ c.toNat && c.toNat ≤ 90

/-- ASCII lowercase letter (`a`-`z`), by code point. -/

def isLowerA (c : Char) : Bool := 97 ≤ c.toNat && c.toNat ≤ 122

/-- ASCII digit (`0`-`9`), by code point. -/

def isDigitA (c : Char) : Bool := 48 ≤ c.toNat && c.toNat ≤ 57

/-- ASCII whitespace as recognised by Python's `str.strip` / regex `\s`
(space, tab, newline, carriage return, vertical tab, form feed). -/

def isPySpace (c : Char) : Bool :=
  c.toNat = 32 || c.toNat = 9 || c.toNat = 10 || c.toNat = 13 ||
  c.toNat = 11 || c.toNat = 12

/-- Characters kept by `re.sub(r"[^A-Za-z\s\-\',]", " ", _)`:
letters, whitespace, hyphen (45), apostrophe (39), comma (44). -/

def allowedChar (c : Char) : Bool :=
  isUpperA c || isLowerA c || isPySpace c ||
  c.toNat = 45 || c.toNat = 39 || c.toNat = 44

/-- Separator class of `re.split(r"[,\s]+", _)`: comma or whitespace. -/

def sepChar (c : Char) : Bool := c.toNat = 44 || isPySpace c

/-- Word character for the regex `\b` boundary (`[A-Za-z0-9_]`). -/

def isWordChar (c : Char) : Bool :=
  isUpperA c || isLowerA c || isDigitA c || c.toNat = 95

/-- Python `str.lower` restricted to ASCII (all text the program lowers is
ASCII after cleaning). -/

def lowChar (c : Char) : Char :=
  if isUpperA c then Char.ofNat (c.toNat + 32) else c

/-- Lower-case an entire string, as `str.lower()`. -/

def pyLower (l : List Char) : List Char := l.map lowChar

/-- Python `str.isdigit` (ASCII): non-empty and all digits. -/

def pyIsDigit (l : List Char) : Bool := !l.isEmpty && l.all isDigitA

/-- Remove trailing characters satisfying `p` (the right half of
Python's `str.strip`). -/

def dropTrail (p : Char → Bool) : List Char → List Char
  | [] => []
  | c :: cs =>
    let r := dropTrail p cs
    if r.isEmpty && p c then [] else c :: r

/-- Python `str.strip(chars)`: drop characters satisfying `p` from both ends. -/

def pyStrip (p : Char → Bool) (l : List Char) : List Char :=
  dropTrail p (l.dropWhile p)

/-- `re.sub(r"[^A-Za-z\s\-\',]", " ", _)`: replace every disallowed
character by a space. -/

def clean (l : List Char) : List Char :=
  l.map (fun c => if allowedChar c then c else ' ')

/-- `[p for p in re.split(r"[,\s]+", _) if p]`: the maximal runs of
non-separator characters, in order. -/

def toks : List Char → List (List Char)
  | [] => []
  | [c] => if sepChar c then [] else [[c]]
  | c :: d :: cs =>
    if sepChar c then toks (d :: cs)
    else if sepChar d then [c] :: toks (d :: cs)
    else
      match toks (d :: cs) with
      | [] => [[c]]
      | t :: ts => (c :: t) :: ts

/-- `" ".join(_)` on token lists. -/

def joinSp : List (List Char) → List Char
  | [] => []
  | [t] => t
  | t :: ts => t ++ ' ' :: joinSp ts

/-- The `_TIME_TOKENS` set of the source, as a list of strings. -/

def _TIME_TOKENS : List (List Char) :=
  ["today", "tomorrow", "tonight", "weekend", "morning", "afternoon",
   "evening", "next", "day", "days", "week", "weeks", "month", "months",
   "monday", "tuesday", "wednesday", "thursday", "friday", "saturday",
   "sunday", "this"].map sl

/-- The `_PREP_TOKENS` set of the source. -/

def _PREP_TOKENS : List (List Char) := ["in", "at", "on", "for"].map sl

/-- The per-token filter of `sanitize_location`'s loop: keep a token unless
its lower-casing is a time word, a preposition, or all digits. -/

def keepTok (p : List Char) : Bool :=
  let low := pyLower p
  !(decide (low ∈ _TIME_TOKENS)) && !(decide (low ∈ _PREP_TOKENS)) &&
  !(pyIsDigit low)

/-- Characters stripped by the final `.strip(" ,")`. -/

def stripSpComma (c : Char) : Bool := c.toNat = 32 || c.toNat = 44

/-- `sanitize_location` from the source: strip, clean, split, filter
time words / prepositions / digit tokens, re-join with single spaces,
strip spaces and commas. -/

def sanitize_location (raw : List Char) : List Char :=
  let cleaned := clean (pyStrip isPySpace raw)
  let keep := (toks cleaned).filter keepTok
  pyStrip stripSpComma (joinSp keep)

/-! ## JSON-like values, hourly and daily records -/

/-- A value read from a JSON-like dict: an integer, a string, or something
with no integer interpretation (null, lists, ...). -/

inductive JVal where
  | vInt (n : Int)
  | vStr (s : List Char)
  | vNull
deriving DecidableEq

/-- Python `int(x)`: identity on ints, optional-sign digit parse on strings
(after stripping whitespace), failure (`None` = exception) otherwise. -/

def pyToInt : JVal → Option Int
  | JVal.vInt n => some n
  | JVal.vStr s =>
    let t := pyStrip isPySpace s
    let sd : Int × List Char :=
      match t with
      | '+' :: r => (1, r)
      | '-' :: r => (-1, r)
      | r => (1, r)
    if sd.2 ≠ [] ∧ sd.2.all isDigitA then
      some (sd.1 * sd.2.foldl (fun a c => a * 10 + (c.toNat - 48 : Int)) 0)
    else none
  | JVal.vNull => none

/-- One hourly sub-record, restricted to the fields the verified functions
consult; a missing key is `none`. -/

structure Hour where
  chanceofrain : Option JVal := none
  windspeedKmph : Option JVal := none
  humidity : Option JVal := none
deriving DecidableEq

/-- One daily forecast record, restricted to the fields the verified
functions consult. -/

structure Day where
  avgtempC : Option JVal := none
  hourly : Option (List Hour) := none
deriving DecidableEq

/-- `day.get("hourly") or []`. -/

def dayHourly (d : Day) : List Hour := d.hourly.getD []

/-- The dict returned by `get_weather_data`, restricted to the fields the
verified functions consult. -/

structure WeatherData where
  location : List Char := []
  forecast : List Day := []
deriving DecidableEq

/-! ## Day metric extractors -/

/-- One step of the running-maximum loops: on a successful `int(...)` take
the larger value, on failure (`except: pass`) keep the accumulator. -/

def maxStep (m : Int) (v : Option Int) : Int :=
  match v with
  | some c => if m < c then c else m
  | none => m

/-- Shared body of `_max_rain_chance` and `_wind_max_kmph`: running maximum,
starting at 0, over the hours whose field (missing defaults to int 0)
converts with `int(...)`; conversion failures are skipped. -/

def maxParsed (g : Hour → Option JVal) (l : List Hour) : Int :=
  l.foldl (fun m h => maxStep m (pyToInt ((g h).getD (JVal.vInt 0)))) 0

/-- `_max_rain_chance` from the source. -/

def _max_rain_chance (d : Day) : Int :=
  maxParsed Hour.chanceofrain (dayHourly d)

/-- `_wind_max_kmph` from the source. -/

def _wind_max_kmph (d : Day) : Int :=
  maxParsed Hour.windspeedKmph (dayHourly d)

/-- One step of `_avg_humidity`'s loop: on a successful `int(...)` add to
the running total and bump the count, otherwise leave both unchanged. -/

def humStep (tc : Int × Int) (h : Hour) : Int × Int :=
  match pyToInt (h.humidity.getD (JVal.vInt 0)) with
  | some v => (tc.1 + v, tc.2 + 1)
  | none => tc

/-- Python `round(a / b)` for integers `a` and `b > 0`, with float division
idealized as exact: round half to even. -/

def roundHalfEven (a b : Int) : Int :=
  let q := Int.fdiv a b
  let r := a - q * b
  if 2 * r < b then q
  else if b < 2 * r then q + 1
  else if q % 2 = 0 then q else q + 1

/-- `_avg_humidity` from the source: `int(round(total / count)) if count
else 0`. -/

def _avg_humidity (d : Day) : Int :=
  let tc := (dayHourly d).foldl humStep (0, 0)
  if tc.2 = 0 then 0 else roundHalfEven tc.1 tc.2

/-- `_to_int` from the source, applied to a possibly-missing dict value
(`int(None)` raises, hence `none`). -/

def _to_int (v : Option JVal) : Option Int := v.bind pyToInt

/-! ## Pleasantness verdict and slice selector -/

/-- `_pleasant_yesno` from the source. -/

def _pleasant_yesno (d : Day) : List Char :=
  let avgc := _to_int d.avgtempC
  let rain := _max_rain_chance d
  let wind := _wind_max_kmph d
  let hum := _avg_humidity d
  if 60 ≤ rain then sl "No, conditions look wet."
  else if 60 ≤ wind then sl "No, it\x27ll be very windy."
  else if (match avgc with
           | some a => a ≤ 10 || 33 ≤ a
           | none => false) then sl "No, temperatures look uncomfortable."
  else if 85 ≤ hum then sl "No, it may feel uncomfortably humid."
  else if (30 ≤ rain && rain < 60) || (40 ≤ wind && wind < 60) then
    sl "Maybe—conditions are borderline."
  else sl "Yes, it should be pleasant."

/-- Python `l[:n]` for a possibly negative `n`. -/

def pySliceTo (l : List Day) (n : Int) : List Day :=
  if 0 ≤ n then l.take n.toNat else l.take (l.length - n.natAbs)

/-- `_pick_day_slice` from the source. -/

def _pick_day_slice (wd : WeatherData) (w : List Char) (days : Int) :
    List Day :=
  let daysList := wd.forecast
  if daysList = [] then []
  else if w = sl "tomorrow" ∧ 2 ≤ daysList.length then
    (daysList.drop 1).take 1
  else if w = sl "next_n_days" then pySliceTo daysList days
  else daysList.take 1

/-! ## Substring search and the rule-based parser's regexes -/

/-- `w` is a leading segment of `l` (used for literal matching). -/

def isPre : List Char → List Char → Bool
  | [], _ => true
  | _ :: _, [] => false
  | a :: as, b :: bs => a == b && isPre as bs

/-- Python's `needle in hay` substring test. -/

def hasSub (n : List Char) : List Char → Bool
  | [] => n == []
  | c :: cs => isPre n (c :: cs) || hasSub n cs

/-- Character class `[A-Za-z\s\-']` of the location pattern. -/

def locClass (c : Char) : Bool :=
  isUpperA c || isLowerA c || isPySpace c || c.toNat = 45 || c.toNat = 39

/-- Attempt one alternative literal of
`\b(?:in|at|for)\s+([A-Za-z][A-Za-z\s\-']{1,60})` at the head of `l`
(the caller has already checked the word boundary): the literal, one or
more spaces, then the captured group. -/

def locLit (w : List Char) (l : List Char) : Option (List Char) :=
  if isPre w l then
    let r := l.drop w.length
    if r.takeWhile isPySpace = [] then none
    else
      match r.dropWhile isPySpace with
      | c :: cs =>
        if isUpperA c || isLowerA c then
          let body := (cs.takeWhile locClass).take 60
          if body = [] then none else some (c :: body)
        else none
      | [] => none
  else none

/-- Try the three alternatives `in`, `at`, `for` in the regex's order. -/

def locTryAt (l : List Char) : Option (List Char) :=
  (locLit (sl "in") l).orElse fun _ =>
    (locLit (sl "at") l).orElse fun _ => locLit (sl "for") l

/-- `re.search` for the location pattern: scan positions left to right,
attempting a match only where the `\b` boundary holds (`prevW` tracks
whether the previous character was a word character). -/

def locScan : Bool → List Char → Option (List Char)
  | _, [] => none
  | prevW, c :: cs =>
    match (if prevW then none else locTryAt (c :: cs)) with
    | some g => some g
    | none => locScan (isWordChar c) cs

/-- Attempt `\bnext\s+(\d)\s+day` at the head of `l` (boundary already
checked); returns the captured digit. -/

def nextTryAt (l : List Char) : Option Nat :=
  if isPre (sl "next") l then
    let r := l.drop 4
    if r.takeWhile isPySpace = [] then none
    else
      match r.dropWhile isPySpace with
      | c :: cs =>
        if isDigitA c then
          if cs.takeWhile isPySpace = [] then none
          else if isPre (sl "day") (cs.dropWhile isPySpace) then
            some (c.toNat - 48)
          else none
        else none
      | [] => none
  else none

/-- `re.search` for the `next N day(s)` pattern. -/

def nextScan : Bool → List Char → Option Nat
  | _, [] => none
  | prevW, c :: cs =>
    match (if prevW then none else nextTryAt (c :: cs)) with
    | some n => some n
    | none => nextScan (isWordChar c) cs

/-! ## Parsed intent -/

/-- The nuance tag set, one Boolean per tag of the fixed vocabulary. -/

structure TagSet where
  umbrella : Bool := false
  feel_cold : Bool := false
  feel_warm : Bool := false
  feel_hot : Bool := false
  windy : Bool := false
  humid : Bool := false
  clothing : Bool := false
  outdoors : Bool := false
  safety : Bool := false
deriving DecidableEq

/-- The tag computation of `parse_weather_question` over the lower-cased
question. -/

def computeTags (q : List Char) : TagSet where
  umbrella := hasSub (sl "umbrella") q || hasSub (sl "raincoat") q
  feel_cold := hasSub (sl "feel cold") q ||
    (hasSub (sl "cold") q &&
      (hasSub (sl "feel") q || hasSub (sl "will i") q || hasSub (sl "do i") q))
  feel_warm := hasSub (sl "feel warm") q ||
    (hasSub (sl "warm") q &&
      (hasSub (sl "feel") q || hasSub (sl "will i") q || hasSub (sl "do i") q))
  feel_hot := hasSub (sl "feel hot") q ||
    (hasSub (sl "hot") q &&
      (hasSub (sl "feel") q || hasSub (sl "will i") q || hasSub (sl "do i") q))
  windy := hasSub (sl "windy") q || hasSub (sl "strong wind") q ||
    hasSub (sl "gust") q
  humid := hasSub (sl "humid") q || hasSub (sl "muggy") q ||
    hasSub (sl "sticky") q
  clothing := hasSub (sl "jacket") q || hasSub (sl "coat") q ||
    hasSub (sl "sweater") q || hasSub (sl "hoodie") q
  outdoors := hasSub (sl "run") q || hasSub (sl "picnic") q ||
    hasSub (sl "beach") q || hasSub (sl "hike") q ||
    hasSub (sl "outdoor") q || hasSub (sl "game") q
  safety := hasSub (sl "cancel") q || hasSub (sl "safe") q ||
    hasSub (sl "dangerous") q || hasSub (sl "storm") q

/-- The dict `parse_weather_question` returns, with `attribute` shortened
to `attr` (`attribute` is a reserved word in Lean). -/

structure Intent where
  location : Option (List Char)
  days : Int
  whenW : List Char
  attr : List Char
  tags : TagSet
  question_text : List Char
deriving DecidableEq

/-- The three admissible `when` values. -/

def allowedWhens : List (List Char) :=
  ["today", "tomorrow", "next_n_days"].map sl

/-- The six admissible `attribute` values. -/

def allowedAttrs : List (List Char) :=
  ["temperature", "rain", "precipitation", "wind", "humidity", "summary"].map
    sl

/-! ## The extractor outcome and `parse_weather_question` -/

/-- The four keys the LLM prompt asks for, each possibly missing. -/

structure JDict where
  location : Option JVal := none
  days : Option JVal := none
  whenW : Option JVal := none
  attr : Option JVal := none
deriving DecidableEq

/-- A parseable JSON value produced by the external extractor: either an
object (dict) with the schema's keys, or some other JSON value on which
`.get` raises. -/

inductive Json where
  | dict (d : JDict)
  | nonDict
deriving DecidableEq

/-- `sanitize_location(p.get("location") or "") or None`: only a non-empty
string survives sanitization; every other value sanitizes to `""` (either
through the falsy-`or` or through the `isinstance` guard). -/

def jsonLoc (v : Option JVal) : Option (List Char) :=
  let s := match v with
    | some (JVal.vStr s) => sanitize_location s
    | _ => []
  if s = [] then none else some s

/-- The rule-based fallback of `parse_weather_question`, applied to the
lower-cased question, the stripped original, and the precomputed tags. -/

def ruleBased (qlow qorig : List Char) (tags : TagSet) : Intent :=
  let loc : Option (List Char) :=
    match locScan false qlow with
    | some g =>
      let s := sanitize_location g
      if s = [] then none else some s
    | none => none
  let wd1 : List Char × Int :=
    if hasSub (sl "tomorrow") qlow then (sl "tomorrow", 1) else (sl "today", 3)
  let wd2 : List Char × Int :=
    match nextScan false qlow with
    | some n => (sl "next_n_days", max 1 (min 5 (n : Int)))
    | none => wd1
  let wd3 : List Char × Int :=
    if hasSub (sl "weekend") qlow then (sl "next_n_days", 3) else wd2
  let attr : List Char :=
    if hasSub (sl "rain") qlow || hasSub (sl "umbrella") qlow ||
        hasSub (sl "precip") qlow then sl "precipitation"
    else if hasSub (sl "windy") qlow || hasSub (sl "wind") qlow ||
        hasSub (sl "gust") qlow then sl "wind"
    else if hasSub (sl "humid") qlow || hasSub (sl "humidity") qlow ||
        hasSub (sl "muggy") qlow then sl "humidity"
    else if hasSub (sl "hot") qlow || hasSub (sl "cold") qlow ||
        hasSub (sl "warm") qlow || hasSub (sl "temp") qlow ||
        hasSub (sl "temperature") qlow then sl "temperature"
    else sl "summary"
  { location := loc, days := wd3.2, whenW := wd3.1, attr := attr,
    tags := tags, question_text := qorig }

/-- The validation applied to the JSON's `when`/`attribute` fields: keep a
string value that is in the allowed list, otherwise fall back to the
default (`"today"` / `"summary"`). -/

def validateIn (xs : List (List Char)) (dflt : List Char) (v : Option JVal) :
    List Char :=
  match v with
  | some (JVal.vStr w) => if w ∈ xs then w else dflt
  | _ => dflt

/-- The `if llm_text:` branch of `parse_weather_question` once `json.loads`
yielded the object `d`: `int(p.get("days", 3))` raising (= `none`) aborts
the whole `try` block, so the rule-based fallback runs instead. -/

def parseLlm (d : JDict) (qlow qorig : List Char) (tags : TagSet) : Intent :=
  match pyToInt (d.days.getD (JVal.vInt 3)) with
  | some n =>
    { location := jsonLoc d.location,
      days := max 1 (min 5 n),
      whenW := validateIn allowedWhens (sl "today") d.whenW,
      attr := validateIn allowedAttrs (sl "summary") d.attr,
      tags := tags, question_text := qorig }
  | none => ruleBased qlow qorig tags

/-- `parse_weather_question` from the source.  `llm` is the outcome of the
external extractor: `none` when it is disabled, times out, fails, or its
text holds no parseable JSON; `some j` when `json.loads` yields `j`
(`.get` raises on a non-object, so that also falls back). -/

def parse_weather_question (llm : Option Json) (question : List Char) :
    Intent :=
  let qorig := pyStrip isPySpace question
  if qorig = [] then
    { location := none, days := 3, whenW := sl "today", attr := sl "summary",
      tags := {}, question_text := [] }
  else
    let qlow := pyLower qorig
    let tags := computeTags qlow
    match llm with
    | some (Json.dict d) => parseLlm d qlow qorig tags
    | _ => ruleBased qlow qorig tags

/-! ## The sanitizer's output viewed as its kept token list -/

/-- The token list `keep` that `sanitize_location` joins: tokens of the
cleaned input surviving the time-word/preposition/digit filter. -/

def sanitizeToks (raw : List Char) : List (List Char) :=
  (toks (clean (pyStrip isPySpace raw))).filter keepTok

/-! ## C1: the forecast slice selector on `when = "tomorrow"` -/

/-- Concrete day records used in counterexamples and witnesses. -/

def dayA : Day := { avgtempC := some (JVal.vInt 20) }

def dayB : Day := { avgtempC := some (JVal.vInt 21) }

def dayC : Day := { avgtempC := some (JVal.vInt 22) }

/-! ## C5: the combined pleasantness verdict -/

/-- The daily record of C5's concrete example: average temperature 9,
rain chance 0, wind 5, humidity 40. -/

def dayC5 : Day :=
  { avgtempC := some (JVal.vInt 9),
    hourly := some [{ chanceofrain := some (JVal.vInt 0),
                      windspeedKmph := some (JVal.vInt 5),
                      humidity := some (JVal.vInt 40) }] }

/-! ## C3: the umbrella/Perth example question -/

/-- C3's example question. -/

def qC3 : List Char := sl "Do I need an umbrella tomorrow in Perth?"

/-! ## C4: the extractor-JSON path -/

/-- C4 counterexample JSON: `days` is the string `"lots"`, on which
`int(...)` raises inside the `try` block. -/

def jC4 : JDict :=
  { location := some (JVal.vStr (sl "Sydney")),
    days := some (JVal.vStr (sl "lots")),
    whenW := some (JVal.vStr (sl "today")),
    attr := some (JVal.vStr (sl "summary")) }

/-- C4 counterexample question. -/

def qC4 : List Char := sl "will it rain tomorrow in Perth?"

/-- C4 witness JSON: no location/when/attribute keys and a `days` value
`int(...)` rejects, exercising the fall-through conjunct. -/

def jW4 : JDict := { days := some (JVal.vStr (sl "nine")) }

/-! ## C9 and C10: the humidity average and the metric ranges -/

/-- The humidity values `_avg_humidity` actually accumulates: each hour's
humidity (int 0 when the key is missing), kept when `int(...)` succeeds. -/

def includedHums (d : Day) : List Int :=
  (dayHourly d).filterMap (fun h => pyToInt (h.humidity.getD (JVal.vInt 0)))

/-- Spec-side definition following C9's words: the rounded mean over
exactly those hours whose own humidity value parses as numeric, hours
with a missing humidity excluded from both the sum and the count. -/

def avgHumiditySpecClaim (d : Day) : Int :=
  let vs := (dayHourly d).filterMap (fun h => h.humidity.bind pyToInt)
  if vs = [] then 0 else roundHalfEven vs.sum vs.length

/-- C9's counterexample day: one hour with humidity "50", one hour with no
humidity key at all. -/

def dayC9 : Day :=
  { hourly := some [{ humidity := some (JVal.vStr (sl "50")) }, {}] }

/-- C10's counterexample day: a single hour whose humidity is "-50". -/

def dayC10 : Day :=
  { hourly := some [{ humidity := some (JVal.vStr (sl "-50")) }] }

/-- C10 witness day: one hour none of whose three fields int-converts, so
no hourly entry contributes to any metric. -/

def dayW10 : Day :=
  { hourly := some [{ chanceofrain := some JVal.vNull,
                      windspeedKmph := some (JVal.vStr (sl "gusty")),
                      humidity := some JVal.vNull }] }


/-! ## Lemmas about the sanitizer's tokenizer -/

lemma toks_cons_sep {c : Char} (h : sepChar c = true) (l : List Char) :
    toks (c :: l) = toks l := by
  cases l with
  | nil => simp [toks, h]
  | cons d cs => simp [toks, h]

lemma toks_nonsep_ne_nil {c : Char} (h : sepChar c = false) (l : List Char) :
    toks (c :: l) ≠ [] := by
  cases l with
  | nil => simp [toks, h]
  | cons d cs =>
    simp only [toks, h, Bool.false_eq_true, if_false]
    split
    · simp
    · split <;> simp

lemma toks_cons_cons_nonsep {c d : Char} (hc : sepChar c = false)
    (hd : sepChar d = false) (l : List Char) {t : List Char}
    {ts : List (List Char)} (h : toks (d :: l) = t :: ts) :
    toks (c :: d :: l) = (c :: t) :: ts := by
  simp [toks, hc, hd, h]

lemma toks_tok {t : List Char} (hne : t ≠ [])
    (hsep : ∀ c ∈ t, sepChar c = false) : toks t = [t] := by
  induction t with
  | nil => cases hne rfl
  | cons c cs ih =>
    cases cs with
    | nil => simp [toks, hsep c (by simp)]
    | cons d ds =>
      have hc := hsep c (by simp)
      have hd := hsep d (by simp)
      have hrec := ih (by simp) (fun x hx => hsep x (by simp [hx]))
      exact toks_cons_cons_nonsep hc hd ds hrec

lemma toks_tok_sep {t : List Char} (hne : t ≠ [])
    (hsep : ∀ c ∈ t, sepChar c = false) {d : Char} (hd : sepChar d = true)
    (rest : List Char) : toks (t ++ d :: rest) = t :: toks (d :: rest) := by
  induction t with
  | nil => cases hne rfl
  | cons c cs ih =>
    cases cs with
    | nil =>
      have hc := hsep c (by simp)
      simp [toks, hc, hd]
    | cons c2 cs2 =>
      have hc := hsep c (by simp)
      have hc2 := hsep c2 (by simp)
      have ihh := ih (by simp) (fun x hx => hsep x (by simp [hx]))
      have step := toks_cons_cons_nonsep hc hc2 (cs2 ++ d :: rest)
        (by simpa using ihh)
      simpa using step

lemma toks_joinSp (ts : List (List Char))
    (h : ∀ t ∈ ts, t ≠ [] ∧ ∀ c ∈ t, sepChar c = false) :
    toks (joinSp ts) = ts := by
  induction ts with
  | nil => simp [joinSp, toks]
  | cons t ts ih =>
    cases ts with
    | nil =>
      have ht := h t (by simp)
      simpa [joinSp] using toks_tok ht.1 ht.2
    | cons u ts2 =>
      have ht := h t (by simp)
      have sp : sepChar ' ' = true := by decide
      rw [show joinSp (t :: u :: ts2) = t ++ ' ' :: joinSp (u :: ts2) from rfl,
        toks_tok_sep ht.1 ht.2 sp (joinSp (u :: ts2)), toks_cons_sep sp,
        ih (fun x hx => h x (by simp [hx]))]

lemma toks_mem : ∀ (l : List Char) (t : List Char), t ∈ toks l →
    t ≠ [] ∧ ∀ c ∈ t, sepChar c = false ∧ c ∈ l := by
  intro l
  induction l with
  | nil => intro t ht; simp [toks] at ht
  | cons c cs ih =>
    intro t ht
    by_cases hc : sepChar c = true
    · rw [toks_cons_sep hc] at ht
      obtain ⟨h1, h2⟩ := ih t ht
      exact ⟨h1, fun x hx => ⟨(h2 x hx).1, by simp [(h2 x hx).2]⟩⟩
    · have hc' : sepChar c = false := by simpa using hc
      cases cs with
      | nil =>
        simp only [toks, hc', Bool.false_eq_true, if_false] at ht
        simp only [List.mem_singleton] at ht
        subst ht
        refine ⟨by simp, ?_⟩
        intro x hx
        simp only [List.mem_singleton] at hx
        subst hx
        simp [hc']
      | cons d ds =>
        by_cases hd : sepChar d = true
        · have heq : toks (c :: d :: ds) = [c] :: toks (d :: ds) := by
            simp [toks, hc', hd]
          rw [heq] at ht
          rcases List.mem_cons.mp ht with ht | ht
          · subst ht
            refine ⟨by simp, ?_⟩
            intro x hx
            simp only [List.mem_singleton] at hx
            subst hx
            simp [hc']
          · obtain ⟨h1, h2⟩ := ih t ht
            exact ⟨h1, fun x hx => ⟨(h2 x hx).1, by simp [(h2 x hx).2]⟩⟩
        · have hd' : sepChar d = false := by simpa using hd
          obtain ⟨t0, ts0, h0⟩ :
              ∃ t0 ts0, toks (d :: ds) = t0 :: ts0 := by
            cases h' : toks (d :: ds) with
            | nil => exact absurd h' (toks_nonsep_ne_nil hd' ds)
            | cons a b => exact ⟨a, b, rfl⟩
          rw [toks_cons_cons_nonsep hc' hd' ds h0] at ht
          rcases List.mem_cons.mp ht with ht | ht
          · subst ht
            have ht0 := ih t0 (by rw [h0]; simp)
            refine ⟨by simp, ?_⟩
            intro x hx
            rcases List.mem_cons.mp hx with hx | hx
            · subst hx; simp [hc']
            · obtain ⟨hx1, hx2⟩ := ht0.2 x hx
              exact ⟨hx1, by simp [hx2]⟩
          · have htt := ih t (by rw [h0]; simp [ht])
            exact ⟨htt.1, fun x hx => ⟨(htt.2 x hx).1, by simp [(htt.2 x hx).2]⟩⟩

/-! ## Lemmas about stripping, joining and cleaning -/

lemma dropTrail_of_all {p : Char → Bool} {l : List Char}
    (h : ∀ c ∈ l, p c = false) : dropTrail p l = l := by
  induction l with
  | nil => rfl
  | cons c cs ih =>
    simp only [dropTrail]
    rw [ih (fun x hx => h x (by simp [hx]))]
    simp [h c (by simp)]

lemma dropTrail_append {p : Char → Bool} (l1 : List Char) {l2 : List Char}
    (h : dropTrail p l2 ≠ []) :
    dropTrail p (l1 ++ l2) = l1 ++ dropTrail p l2 := by
  induction l1 with
  | nil => simp
  | cons c cs ih =>
    simp only [List.cons_append, dropTrail, List.append_eq]
    rw [ih]
    have hne : (cs ++ dropTrail p l2).isEmpty = false := by
      cases h' : dropTrail p l2 with
      | nil => exact absurd h' h
      | cons a b => cases cs <;> simp [h']
    simp [hne]

lemma joinSp_ne_nil {t : List Char} (h : t ≠ []) (ts : List (List Char)) :
    joinSp (t :: ts) ≠ [] := by
  cases ts <;> cases t <;> simp_all [joinSp]

lemma dropTrail_joinSp {p : Char → Bool}
    (hp : ∀ c, p c = true → sepChar c = true) (ts : List (List Char))
    (h : ∀ t ∈ ts, t ≠ [] ∧ ∀ c ∈ t, sepChar c = false) :
    dropTrail p (joinSp ts) = joinSp ts := by
  have pfalse : ∀ (t : List Char), (∀ c ∈ t, sepChar c = false) →
      ∀ c ∈ t, p c = false := by
    intro t ht c hc
    cases hpc : p c
    · rfl
    · exact absurd (hp c hpc) (by simp [ht c hc])
  induction ts with
  | nil => rfl
  | cons t ts ih =>
    cases ts with
    | nil =>
      have ht := h t (by simp)
      simpa [joinSp] using dropTrail_of_all (pfalse t ht.2)
    | cons u ts2 =>
      have hrec := ih (fun x hx => h x (by simp [hx]))
      have hne : joinSp (u :: ts2) ≠ [] :=
        joinSp_ne_nil (h u (by simp)).1 ts2
      have h2 : dropTrail p (' ' :: joinSp (u :: ts2)) =
          ' ' :: joinSp (u :: ts2) := by
        simp only [dropTrail]
        rw [hrec]
        have : (joinSp (u :: ts2)).isEmpty = false := by
          cases h' : joinSp (u :: ts2)
          · exact absurd h' hne
          · simp
        simp [this]
      calc dropTrail p (joinSp (t :: u :: ts2))
          = dropTrail p (t ++ ' ' :: joinSp (u :: ts2)) := rfl
        _ = t ++ dropTrail p (' ' :: joinSp (u :: ts2)) :=
            dropTrail_append t (by rw [h2]; simp)
        _ = t ++ ' ' :: joinSp (u :: ts2) := by rw [h2]
        _ = joinSp (t :: u :: ts2) := rfl

lemma pyStrip_joinSp {p : Char → Bool}
    (hp : ∀ c, p c = true → sepChar c = true) (ts : List (List Char))
    (h : ∀ t ∈ ts, t ≠ [] ∧ ∀ c ∈ t, sepChar c = false) :
    pyStrip p (joinSp ts) = joinSp ts := by
  unfold pyStrip
  have hdw : (joinSp ts).dropWhile p = joinSp ts := by
    cases ts with
    | nil => simp [joinSp]
    | cons t ts =>
      obtain ⟨hne, hsep⟩ := h t (by simp)
      cases t with
      | nil => cases hne rfl
      | cons c cs =>
        have hc : p c = false := by
          cases hpc : p c
          · rfl
          · exact absurd (hp c hpc) (by simp [hsep c (by simp)])
        cases ts with
        | nil => simp [joinSp, List.dropWhile_cons, hc]
        | cons u ts2 => simp [joinSp, List.dropWhile_cons, hc]
  rw [hdw]
  exact dropTrail_joinSp hp ts h

lemma mem_joinSp {c : Char} : ∀ (ts : List (List Char)), c ∈ joinSp ts →
    c = ' ' ∨ ∃ t ∈ ts, c ∈ t := by
  intro ts
  induction ts with
  | nil => intro h; simp [joinSp] at h
  | cons t ts ih =>
    intro h
    cases ts with
    | nil => exact Or.inr ⟨t, by simp, by simpa [joinSp] using h⟩
    | cons u ts2 =>
      rw [show joinSp (t :: u :: ts2) = t ++ ' ' :: joinSp (u :: ts2)
        from rfl] at h
      rcases List.mem_append.mp h with h | h
      · exact Or.inr ⟨t, by simp, h⟩
      · rcases List.mem_cons.mp h with h | h
        · exact Or.inl h
        · rcases ih h with h | ⟨x, hx, hcx⟩
          · exact Or.inl h
          · exact Or.inr ⟨x, by simp [hx], hcx⟩

lemma mem_clean_allowed {c : Char} {l : List Char} (h : c ∈ clean l) :
    allowedChar c = true := by
  simp only [clean, List.mem_map] at h
  obtain ⟨x, -, hx⟩ := h
  split at hx
  · subst hx; assumption
  · subst hx; decide

lemma clean_eq_self {l : List Char} (h : ∀ c ∈ l, allowedChar c = true) :
    clean l = l := by
  unfold clean
  induction l with
  | nil => rfl
  | cons c cs ih =>
    simp only [List.map_cons]
    rw [if_pos (h c (by simp)), ih (fun x hx => h x (by simp [hx]))]

lemma sanitizeToks_ok (raw : List Char) : ∀ t ∈ sanitizeToks raw,
    t ≠ [] ∧ ∀ c ∈ t, sepChar c = false ∧ allowedChar c = true := by
  intro t ht
  have ht' := List.mem_of_mem_filter ht
  obtain ⟨h1, h2⟩ := toks_mem _ t ht'
  exact ⟨h1, fun c hc => ⟨(h2 c hc).1, mem_clean_allowed (h2 c hc).2⟩⟩

lemma sanitizeToks_ok' (raw : List Char) : ∀ t ∈ sanitizeToks raw,
    t ≠ [] ∧ ∀ c ∈ t, sepChar c = false :=
  fun t ht => ⟨(sanitizeToks_ok raw t ht).1,
    fun c hc => ((sanitizeToks_ok raw t ht).2 c hc).1⟩

lemma stripSpComma_sep : ∀ c, stripSpComma c = true → sepChar c = true := by
  intro c h
  simp only [stripSpComma, Bool.or_eq_true, decide_eq_true_eq] at h
  rcases h with h | h <;> simp [sepChar, isPySpace, h]

lemma isPySpace_sep : ∀ c, isPySpace c = true → sepChar c = true := by
  intro c h
  simp [sepChar, h]

lemma sanitize_eq_joinSp (raw : List Char) :
    sanitize_location raw = joinSp (sanitizeToks raw) := by
  unfold sanitize_location
  exact pyStrip_joinSp stripSpComma_sep _ (sanitizeToks_ok' raw)

lemma sanitizeToks_keep (raw : List Char) :
    ∀ t ∈ sanitizeToks raw, keepTok t = true := by
  intro t ht
  unfold sanitizeToks at ht
  exact (List.mem_filter.mp ht).2

lemma allowed_nonsep_not_digit {c : Char} (ha : allowedChar c = true)
    (hs : sepChar c = false) : isDigitA c = false := by
  rw [Bool.eq_false_iff]
  intro hd
  simp only [allowedChar, isUpperA, isLowerA, isPySpace, Bool.or_eq_true,
    Bool.and_eq_true, decide_eq_true_eq] at ha
  simp only [isDigitA, Bool.and_eq_true, decide_eq_true_eq] at hd
  simp only [sepChar, isPySpace, Bool.or_eq_false_iff,
    decide_eq_false_iff_not] at hs
  omega

/-- **C7**: `sanitize_location` is idempotent: sanitizing an already
sanitized string changes nothing. -/

theorem sanitize_location_idempotent (x : List Char) :
    sanitize_location (sanitize_location x) = sanitize_location x := by
  have hok' := sanitizeToks_ok' x
  rw [sanitize_eq_joinSp x]
  have hall : ∀ c ∈ joinSp (sanitizeToks x), allowedChar c = true := by
    intro c hc
    rcases mem_joinSp _ hc with h | ⟨t, ht, hct⟩
    · subst h; decide
    · exact ((sanitizeToks_ok x t ht).2 c hct).2
  simp only [sanitize_location]
  rw [pyStrip_joinSp isPySpace_sep _ hok', clean_eq_self hall,
    toks_joinSp _ hok',
    List.filter_eq_self.mpr (sanitizeToks_keep x)]
  exact pyStrip_joinSp stripSpComma_sep _ hok'

/-- **C6**: every token of `sanitize_location`'s output is, after
lower-casing, neither a time word nor a preposition, and no output token
consists entirely of digits. -/

theorem sanitize_location_no_banned_tokens (raw t : List Char)
    (ht : t ∈ toks (sanitize_location raw)) :
    pyLower t ∉ _TIME_TOKENS ∧ pyLower t ∉ _PREP_TOKENS ∧
    pyIsDigit t = false := by
  rw [sanitize_eq_joinSp raw, toks_joinSp _ (sanitizeToks_ok' raw)] at ht
  have hk : keepTok t = true := sanitizeToks_keep raw t ht
  simp only [keepTok, Bool.and_eq_true, Bool.not_eq_true',
    decide_eq_false_iff_not] at hk
  obtain ⟨⟨hT, hP⟩, hD⟩ := hk
  refine ⟨hT, hP, ?_⟩
  obtain ⟨hne, hch⟩ := sanitizeToks_ok raw t ht
  cases t with
  | nil => cases hne rfl
  | cons c cs =>
    have h1 := hch c (by simp)
    have hd := allowed_nonsep_not_digit h1.2 h1.1
    simp [pyIsDigit, hd]

/-- Witness for C6 at a concrete input: `"Perth tomorrow in 55"`
sanitizes to `"Perth"`, whose single token passes all three checks. -/

theorem sanitize_location_no_banned_tokens_witness :
    pyLower (sl "Perth") ∉ _TIME_TOKENS ∧
    pyLower (sl "Perth") ∉ _PREP_TOKENS ∧ pyIsDigit (sl "Perth") = false :=
  sanitize_location_no_banned_tokens (sl "Perth tomorrow in 55") (sl "Perth")
    (by decide)

/-- **C1 counterexample**: on a 1-day forecast with `when="tomorrow"`,
`_pick_day_slice` falls through to the final `days_list[:1]` and returns
the first record, not the empty sequence the claim promises. -/

theorem pick_day_slice_tomorrow_one_day_counterexample :
    _pick_day_slice { forecast := [dayA] } (sl "tomorrow") 1 = [dayA] ∧
    ([dayA] : List Day) ≠ [] := by
  constructor
  · decide
  · simp

/-- **C1 (amended)**: with `when="tomorrow"` the selector returns the
one-element sequence holding the second record when at least two records
exist, the one-element sequence holding the first record when exactly one
exists, and the empty sequence only when the forecast is empty. -/

theorem pick_day_slice_tomorrow (wd : WeatherData) (days : Int) :
    (∀ d0 d1 rest, wd.forecast = d0 :: d1 :: rest →
      _pick_day_slice wd (sl "tomorrow") days = [d1]) ∧
    (∀ d0, wd.forecast = [d0] →
      _pick_day_slice wd (sl "tomorrow") days = [d0]) ∧
    (wd.forecast = [] → _pick_day_slice wd (sl "tomorrow") days = []) := by
  refine ⟨?_, ?_, ?_⟩
  · intro d0 d1 rest h
    simp [_pick_day_slice, h]
  · intro d0 h
    have hne : sl "tomorrow" ≠ sl "next_n_days" := by decide
    simp [_pick_day_slice, h, hne]
  · intro h
    simp [_pick_day_slice, h]

/-- Witness for C1's amended theorem on a concrete 3-day forecast. -/

theorem pick_day_slice_tomorrow_witness :
    _pick_day_slice { forecast := [dayA, dayB, dayC] } (sl "tomorrow") 3 =
      [dayB] :=
  (pick_day_slice_tomorrow { forecast := [dayA, dayB, dayC] } 3).1
    dayA dayB [dayC] rfl

/-- **C5**: `_pleasant_yesno` checks, in order: rain ≥ 60, wind ≥ 60,
numeric average temperature ≤ 10 or ≥ 33, humidity ≥ 85 (each giving its
"No" message, first match winning), then rain in [30,60) or wind in
[40,60) giving "Maybe", and otherwise answers "Yes"; on the concrete day
with average temperature 9, rain 0, wind 5, humidity 40 the temperature
condition fires. -/

theorem pleasant_yesno_cases (d : Day) :
    (60 ≤ _max_rain_chance d →
      _pleasant_yesno d = sl "No, conditions look wet.") ∧
    (_max_rain_chance d < 60 → 60 ≤ _wind_max_kmph d →
      _pleasant_yesno d = sl "No, it\x27ll be very windy.") ∧
    (_max_rain_chance d < 60 → _wind_max_kmph d < 60 →
      (∃ a, _to_int d.avgtempC = some a ∧ (a ≤ 10 ∨ 33 ≤ a)) →
      _pleasant_yesno d = sl "No, temperatures look uncomfortable.") ∧
    (_max_rain_chance d < 60 → _wind_max_kmph d < 60 →
      (∀ a, _to_int d.avgtempC = some a → 10 < a ∧ a < 33) →
      85 ≤ _avg_humidity d →
      _pleasant_yesno d = sl "No, it may feel uncomfortably humid.") ∧
    (_max_rain_chance d < 60 → _wind_max_kmph d < 60 →
      (∀ a, _to_int d.avgtempC = some a → 10 < a ∧ a < 33) →
      _avg_humidity d < 85 →
      (30 ≤ _max_rain_chance d ∨ 40 ≤ _wind_max_kmph d) →
      _pleasant_yesno d = sl "Maybe—conditions are borderline.") ∧
    (_max_rain_chance d < 30 → _wind_max_kmph d < 40 →
      (∀ a, _to_int d.avgtempC = some a → 10 < a ∧ a < 33) →
      _avg_humidity d < 85 →
      _pleasant_yesno d = sl "Yes, it should be pleasant.") ∧
    _pleasant_yesno dayC5 = sl "No, temperatures look uncomfortable." := by
  have htemp : ∀ (h : ∀ a, _to_int d.avgtempC = some a → 10 < a ∧ a < 33),
      (match _to_int d.avgtempC with
       | some a => a ≤ 10 || 33 ≤ a
       | none => false) = false := by
    intro h
    cases hv : _to_int d.avgtempC with
    | none => simp
    | some a =>
      have := h a hv
      simp only [decide_eq_true_eq, Bool.or_eq_false_iff,
        decide_eq_false_iff_not]
      omega
  refine ⟨?_, ?_, ?_, ?_, ?_, ?_, by decide⟩
  · intro h
    simp [_pleasant_yesno, h]
  · intro h1 h2
    simp [_pleasant_yesno, h2]
    omega
  · intro h1 h2 ⟨a, ha, hcond⟩
    simp only [_pleasant_yesno, ha]
    rw [if_neg (by omega), if_neg (by omega), if_pos]
    simp only [decide_eq_true_eq, Bool.or_eq_true]
    omega
  · intro h1 h2 h3 h4
    simp only [_pleasant_yesno]
    rw [if_neg (by omega), if_neg (by omega), if_neg (by simp [htemp h3]),
      if_pos h4]
  · intro h1 h2 h3 h4 h5
    simp only [_pleasant_yesno]
    rw [if_neg (by omega), if_neg (by omega), if_neg (by simp [htemp h3]),
      if_neg (by omega), if_pos]
    simp only [Bool.or_eq_true, Bool.and_eq_true, decide_eq_true_eq]
    omega
  · intro h1 h2 h3 h4
    simp only [_pleasant_yesno]
    rw [if_neg (by omega), if_neg (by omega), if_neg (by simp [htemp h3]),
      if_neg (by omega), if_neg]
    simp only [Bool.or_eq_true, Bool.and_eq_true, decide_eq_true_eq]
    omega

/-- Witness for C5 exercising the temperature conjunct at the concrete
example day. -/

theorem pleasant_yesno_cases_witness :
    _pleasant_yesno dayC5 = sl "No, temperatures look uncomfortable." :=
  (pleasant_yesno_cases dayC5).2.2.1 (by decide) (by decide)
    ⟨9, by decide, Or.inl (by decide)⟩

/-! ## C2: parser invariants on every path -/

lemma validateIn_mem {xs : List (List Char)} {dflt : List Char}
    (hd : dflt ∈ xs) (v : Option JVal) : validateIn xs dflt v ∈ xs := by
  cases v with
  | none => exact hd
  | some w =>
    cases w with
    | vInt n => exact hd
    | vNull => exact hd
    | vStr s =>
      simp only [validateIn]
      split
      · assumption
      · exact hd

lemma ruleBased_invariants (qlow qorig : List Char) (tags : TagSet) :
    (1 ≤ (ruleBased qlow qorig tags).days ∧
      (ruleBased qlow qorig tags).days ≤ 5) ∧
    (ruleBased qlow qorig tags).whenW ∈ allowedWhens ∧
    (ruleBased qlow qorig tags).attr ∈ allowedAttrs := by
  simp only [ruleBased]
  refine ⟨?_, ?_, ?_⟩
  · split
    · norm_num
    · split
      · constructor
        · exact le_max_left 1 _
        · exact max_le (by norm_num) (min_le_left 5 _)
      · split <;> norm_num
  · split
    · exact (by decide : sl "next_n_days" ∈ allowedWhens)
    · split
      · exact (by decide : sl "next_n_days" ∈ allowedWhens)
      · split
        · exact (by decide : sl "tomorrow" ∈ allowedWhens)
        · exact (by decide : sl "today" ∈ allowedWhens)
  · split
    · exact (by decide : sl "precipitation" ∈ allowedAttrs)
    · split
      · exact (by decide : sl "wind" ∈ allowedAttrs)
      · split
        · exact (by decide : sl "humidity" ∈ allowedAttrs)
        · split
          · exact (by decide : sl "temperature" ∈ allowedAttrs)
          · exact (by decide : sl "summary" ∈ allowedAttrs)

lemma parseLlm_invariants (d : JDict) (qlow qorig : List Char)
    (tags : TagSet) :
    (1 ≤ (parseLlm d qlow qorig tags).days ∧
      (parseLlm d qlow qorig tags).days ≤ 5) ∧
    (parseLlm d qlow qorig tags).whenW ∈ allowedWhens ∧
    (parseLlm d qlow qorig tags).attr ∈ allowedAttrs := by
  unfold parseLlm
  cases hd : pyToInt (d.days.getD (JVal.vInt 3)) with
  | none => exact ruleBased_invariants _ _ _
  | some n =>
    exact ⟨⟨le_max_left 1 _, max_le (by norm_num) (min_le_left 5 _)⟩,
      validateIn_mem (by decide) d.whenW,
      validateIn_mem (by decide) d.attr⟩

/-- **C2**: for every extractor outcome and every question, the parsed
intent's `days` lies in [1,5], its `when` is one of the three allowed
values, and its `attribute` is one of the six allowed values. -/

theorem parse_weather_question_invariants (llm : Option Json)
    (q : List Char) :
    (1 ≤ (parse_weather_question llm q).days ∧
      (parse_weather_question llm q).days ≤ 5) ∧
    (parse_weather_question llm q).whenW ∈ allowedWhens ∧
    (parse_weather_question llm q).attr ∈ allowedAttrs := by
  unfold parse_weather_question
  by_cases hq : pyStrip isPySpace q = []
  · simp only [if_pos hq]
    exact ⟨⟨by decide, by decide⟩, by decide, by decide⟩
  · simp only [if_neg hq]
    rcases llm with _ | j
    · exact ruleBased_invariants _ _ _
    · cases j with
      | nonDict => exact ruleBased_invariants _ _ _
      | dict d => exact parseLlm_invariants _ _ _ _

/-! ## C8: the weekend rule overrides earlier time-window rules -/

lemma ruleBased_weekend (qlow qorig : List Char) (tags : TagSet)
    (h : hasSub (sl "weekend") qlow = true) :
    (ruleBased qlow qorig tags).whenW = sl "next_n_days" ∧
    (ruleBased qlow qorig tags).days = 3 := by
  simp [ruleBased, h]

/-- **C8**: in the rule-based fallback (extractor absent), every non-empty
question whose lower-cased text contains "weekend" parses to
when="next_n_days" and days=3, even if the "next N day(s)" pattern also
matched — the weekend rule is applied last and wins. -/

theorem parse_weekend_override (q : List Char)
    (h1 : pyStrip isPySpace q ≠ [])
    (h2 : hasSub (sl "weekend") (pyLower (pyStrip isPySpace q)) = true) :
    (parse_weather_question none q).whenW = sl "next_n_days" ∧
    (parse_weather_question none q).days = 3 := by
  have h3 := ruleBased_weekend (pyLower (pyStrip isPySpace q))
    (pyStrip isPySpace q) (computeTags (pyLower (pyStrip isPySpace q))) h2
  unfold parse_weather_question
  simp only [if_neg h1]
  exact h3

/-- Witness for C8: a question containing both "weekend" and "next 2 days"
still parses to the weekend window. -/

theorem parse_weekend_override_witness :
    (parse_weather_question none
      (sl "picnic this weekend or the next 2 days?")).whenW =
      sl "next_n_days" ∧
    (parse_weather_question none
      (sl "picnic this weekend or the next 2 days?")).days = 3 :=
  parse_weekend_override (sl "picnic this weekend or the next 2 days?")
    (by decide) (by decide)

/-- **C3 counterexample**: with the extractor disabled the parsed location
is `"perth"` — the location regex searches the lower-cased question — so
it is not the claimed `"Perth"`. -/

theorem parse_perth_location_counterexample :
    (parse_weather_question none qC3).location = some (sl "perth") ∧
    (parse_weather_question none qC3).location ≠ some (sl "Perth") := by
  exact ⟨by decide, by decide⟩

/-- **C3 (amended)**: on "Do I need an umbrella tomorrow in Perth?" with
the extractor disabled, the intent has location "perth" (lower-cased by
the regex search), when="tomorrow", days=1, and the umbrella tag. -/

theorem parse_perth_question :
    (parse_weather_question none qC3).location = some (sl "perth") ∧
    (parse_weather_question none qC3).whenW = sl "tomorrow" ∧
    (parse_weather_question none qC3).days = 1 ∧
    (parse_weather_question none qC3).tags.umbrella = true := by
  exact ⟨by decide, by decide, by decide, by decide⟩

/-- **C4 counterexample**: with parseable JSON whose `days` value is not
int-convertible, the parser does not return from the extractor path
(which would give when="today" from the JSON and days defaulted to 3); it
falls through to the rule-based parser, yielding when="tomorrow", days=1. -/

theorem parse_llm_invalid_days_counterexample :
    (parse_weather_question (some (Json.dict jC4)) qC4).whenW =
      sl "tomorrow" ∧
    (parse_weather_question (some (Json.dict jC4)) qC4).days = 1 ∧
    sl "tomorrow" ≠ sl "today" ∧ (1 : Int) ≠ 3 := by
  exact ⟨by decide, by decide, by decide, by decide⟩

/-- **C4 (amended)**: when the extractor yields a JSON object whose `days`
field (int 3 when missing) int-converts to `n`, the parser returns from
that path with the JSON's location sanitized, days clamped to [1,5],
when/attribute validated against the allowed values, the question's tag
set and the stripped question text — days defaulting to 3 when the field
is missing; when `days` does not int-convert, or the JSON is not an
object, the parser falls through to the rule-based extraction instead. -/

theorem parse_llm_path (d : JDict) (q : List Char)
    (hq : pyStrip isPySpace q ≠ []) :
    (∀ n, pyToInt (d.days.getD (JVal.vInt 3)) = some n →
      parse_weather_question (some (Json.dict d)) q =
        { location := jsonLoc d.location,
          days := max 1 (min 5 n),
          whenW := validateIn allowedWhens (sl "today") d.whenW,
          attr := validateIn allowedAttrs (sl "summary") d.attr,
          tags := computeTags (pyLower (pyStrip isPySpace q)),
          question_text := pyStrip isPySpace q }) ∧
    (d.days = none →
      (parse_weather_question (some (Json.dict d)) q).days = 3) ∧
    (pyToInt (d.days.getD (JVal.vInt 3)) = none →
      parse_weather_question (some (Json.dict d)) q =
        parse_weather_question none q) ∧
    parse_weather_question (some Json.nonDict) q =
      parse_weather_question none q := by
  have heq : parse_weather_question (some (Json.dict d)) q =
      parseLlm d (pyLower (pyStrip isPySpace q)) (pyStrip isPySpace q)
        (computeTags (pyLower (pyStrip isPySpace q))) := by
    unfold parse_weather_question
    rw [if_neg hq]
  have heqR : parse_weather_question none q =
      ruleBased (pyLower (pyStrip isPySpace q)) (pyStrip isPySpace q)
        (computeTags (pyLower (pyStrip isPySpace q))) := by
    unfold parse_weather_question
    rw [if_neg hq]
  have heqN : parse_weather_question (some Json.nonDict) q =
      ruleBased (pyLower (pyStrip isPySpace q)) (pyStrip isPySpace q)
        (computeTags (pyLower (pyStrip isPySpace q))) := by
    unfold parse_weather_question
    rw [if_neg hq]
  refine ⟨?_, ?_, ?_, ?_⟩
  · intro n hn
    rw [heq]
    unfold parseLlm
    rw [hn]
  · intro hmiss
    rw [heq]
    unfold parseLlm
    rw [hmiss]
    exact (by norm_num : max 1 (min 5 (3 : Int)) = 3)
  · intro hn
    rw [heq, heqR]
    unfold parseLlm
    rw [hn]
  · rw [heqN, heqR]

/-- Witness for C4's amended theorem at a concrete JSON and question. -/

theorem parse_llm_path_witness :
    parse_weather_question (some (Json.dict jW4)) (sl "hello") =
      parse_weather_question none (sl "hello") :=
  (parse_llm_path jW4 (sl "hello") (by decide)).2.2.1 (by decide)

lemma humFold (l : List Hour) : ∀ (t c : Int),
    l.foldl humStep (t, c) =
      (t + (l.filterMap
        (fun h => pyToInt (h.humidity.getD (JVal.vInt 0)))).sum,
       c + ((l.filterMap
        (fun h => pyToInt (h.humidity.getD (JVal.vInt 0)))).length : Int)) := by
  induction l with
  | nil => intro t c; simp
  | cons h l ih =>
    intro t c
    simp only [List.foldl_cons, List.filterMap_cons]
    cases hv : pyToInt (h.humidity.getD (JVal.vInt 0)) with
    | none =>
      rw [show humStep (t, c) h = (t, c) by simp [humStep, hv]]
      rw [ih t c]
    | some v =>
      rw [show humStep (t, c) h = (t + v, c + 1) by simp [humStep, hv]]
      rw [ih (t + v) (c + 1)]
      simp only [List.sum_cons, List.length_cons, Prod.mk.injEq]
      push_cast
      constructor <;> ring

lemma avg_humidity_characterization (d : Day) :
    _avg_humidity d =
      if includedHums d = [] then 0
      else roundHalfEven (includedHums d).sum (includedHums d).length := by
  unfold _avg_humidity includedHums
  rw [humFold (dayHourly d) 0 0]
  simp only [zero_add]
  cases h : (dayHourly d).filterMap
      (fun h => pyToInt (h.humidity.getD (JVal.vInt 0))) with
  | nil => simp
  | cons v vs =>
    rw [if_neg (by simp only [List.length_cons]; omega), if_neg (by simp)]

/-- **C9 (amended)**: `_avg_humidity` is the half-to-even rounding of the
mean over the hours whose humidity value — taken as int 0 when the
humidity key is missing — int-converts (so a missing-humidity hour counts
as 0 in both sum and count, and only non-convertible values are skipped),
and 0 when no hour contributes. -/

theorem avg_humidity_eq (d : Day) :
    _avg_humidity d =
      if includedHums d = [] then 0
      else roundHalfEven (includedHums d).sum (includedHums d).length :=
  avg_humidity_characterization d

/-- **C9 counterexample**: the code averages 50 and the defaulted 0 to 25,
while the claim's missing-excluded mean is 50. -/

theorem avg_humidity_counterexample :
    _avg_humidity dayC9 = 25 ∧ avgHumiditySpecClaim dayC9 = 50 ∧
    _avg_humidity dayC9 ≠ avgHumiditySpecClaim dayC9 := by
  exact ⟨by decide, by decide, by decide⟩

lemma maxParsed_nonneg (g : Hour → Option JVal) (l : List Hour) :
    0 ≤ maxParsed g l := by
  unfold maxParsed
  have step : ∀ (m : Int), 0 ≤ m →
      0 ≤ l.foldl
        (fun m h => maxStep m (pyToInt ((g h).getD (JVal.vInt 0)))) m := by
    induction l with
    | nil => intro m hm; simpa using hm
    | cons h l ih =>
      intro m hm
      simp only [List.foldl_cons]
      cases hv : pyToInt ((g h).getD (JVal.vInt 0)) with
      | none =>
        simp only [maxStep]
        exact ih m hm
      | some c =>
        simp only [maxStep]
        split
        · exact ih c (by omega)
        · exact ih m hm
  exact step 0 le_rfl

lemma roundHalfEven_nonneg {a b : Int} (ha : 0 ≤ a) (hb : 0 < b) :
    0 ≤ roundHalfEven a b := by
  have hq : 0 ≤ Int.fdiv a b := Int.fdiv_nonneg ha (le_of_lt hb)
  dsimp only [roundHalfEven]
  split
  · exact hq
  · split
    · omega
    · split <;> omega

/-- **C10 counterexample**: `_avg_humidity` returns −50, a negative value,
on a record whose hourly humidity is negative, so it is not always
non-negative. -/

theorem metrics_nonneg_counterexample :
    _avg_humidity dayC10 = -50 ∧ _avg_humidity dayC10 < 0 := by
  exact ⟨by decide, by decide⟩

lemma maxParsed_eq_zero (g : Hour → Option JVal) (l : List Hour)
    (hall : ∀ x ∈ l, pyToInt ((g x).getD (JVal.vInt 0)) = none) :
    maxParsed g l = 0 := by
  unfold maxParsed
  have step : ∀ (l2 : List Hour),
      (∀ x ∈ l2, pyToInt ((g x).getD (JVal.vInt 0)) = none) → ∀ (m : Int),
      l2.foldl (fun m h => maxStep m (pyToInt ((g h).getD (JVal.vInt 0)))) m
        = m := by
    intro l2
    induction l2 with
    | nil => intro _ m; rfl
    | cons x l2 ih =>
      intro h2 m
      simp only [List.foldl_cons]
      rw [h2 x (by simp)]
      simp only [maxStep]
      exact ih (fun y hy => h2 y (by simp [hy])) m
  exact step l hall 0

/-- **C10 (amended)**: `_max_rain_chance` and `_wind_max_kmph` are always
non-negative and return 0 whenever no hourly entry contributes — in
particular on an empty or missing hourly list and on a non-empty hourly
list none of whose entries int-converts; `_avg_humidity` returns 0 when no
hour contributes (empty, missing, or entirely non-convertible hourly
humidity values) and is non-negative provided every accumulated humidity
value is non-negative, though it can go negative when hourly humidity
values are negative. -/

theorem metrics_ranges (d : Day) :
    0 ≤ _max_rain_chance d ∧ 0 ≤ _wind_max_kmph d ∧
    ((∀ h ∈ dayHourly d,
        pyToInt (h.chanceofrain.getD (JVal.vInt 0)) = none) →
      _max_rain_chance d = 0) ∧
    ((∀ h ∈ dayHourly d,
        pyToInt (h.windspeedKmph.getD (JVal.vInt 0)) = none) →
      _wind_max_kmph d = 0) ∧
    (includedHums d = [] → _avg_humidity d = 0) ∧
    ((∀ v ∈ includedHums d, 0 ≤ v) → 0 ≤ _avg_humidity d) := by
  refine ⟨maxParsed_nonneg _ _, maxParsed_nonneg _ _, ?_, ?_, ?_, ?_⟩
  · intro h
    exact maxParsed_eq_zero _ _ h
  · intro h
    exact maxParsed_eq_zero _ _ h
  · intro h
    rw [avg_humidity_characterization, if_pos h]
  · intro h
    rw [avg_humidity_characterization]
    split
    · exact le_rfl
    · rename_i hne
      refine roundHalfEven_nonneg (List.sum_nonneg h) ?_
      exact_mod_cast List.length_pos.mpr hne

/-- Witness for C10's amended theorem at a day whose single hourly entry
is entirely non-convertible. -/

theorem metrics_ranges_witness :
    _max_rain_chance dayW10 = 0 ∧ _wind_max_kmph dayW10 = 0 ∧
    _avg_humidity dayW10 = 0 ∧ 0 ≤ _avg_humidity dayW10 := by
  obtain ⟨-, -, h3, h4, h5, h6⟩ := metrics_ranges dayW10
  exact ⟨h3 (by decide), h4 (by decide), h5 (by decide), h6 (by decide)⟩
